import Mathlib

/-!
Verification of the table cell-merge reconstruction algorithm of
`good_doc_to_xml.py` (function `process_table`, the MergeGridResolver of the
specification).

The embedding mirrors the source line by line:
* a docx table is a list of rows, each an ordered list of raw cells
  (`Table`, `RawCell`); a raw cell exposes its `w:gridSpan` value, its
  `w:vMerge` element (`none` = element absent, `some none` = element present
  without a `w:val` attribute, `some (some s)` = element present with value
  `s`), its paragraph texts and its nested tables — exactly the fields
  `process_table` reads through the document library's interface;
* `scanRow` is the `while c < n_cols` loop of one row (source lines 42-100);
  its `fuel` argument counts remaining loop iterations, so a `none` result
  models the loop failing to finish (the code does not clamp a gridSpan of
  0, under which `c += colspan` stops making progress);
* `scanRows` is the `for r, row in enumerate(table.rows)` loop threading the
  `processed_cells` set through the rows (lines 39-41);
* `processTable` assembles the emitted `<table>`/`<row>`/`<cell>` XML
  element tree; its own fuel bounds the nesting depth of the recursion into
  nested tables, and `none` also covers the `ValueError` that
  `max(len(row.cells) for row in table.rows)` raises on a table with no
  rows (line 37).

Every emission of a `<cell>` element is recorded as an `EmittedCell`
carrying the loop coordinates `(r, c)` and the computed `rowspan`/`colspan`
at the moment line 86 runs, so the tiling/occupancy claims can be stated
about the emitted spans while `mkCellElem` turns the very same record into
the XML of lines 86-98.
-/

/-- XML element tree: tag, attributes in insertion order, text content,
child elements (the shape produced through `etree.SubElement`). -/
inductive Xml : Type where
  | elem (tag : String) (attrs : List (String × String)) (text : String)
      (children : List Xml) : Xml

def Xml.tag : Xml → String
  | .elem t _ _ _ => t

def Xml.attrs : Xml → List (String × String)
  | .elem _ a _ _ => a

def Xml.text : Xml → String
  | .elem _ _ s _ => s

def Xml.children : Xml → List Xml
  | .elem _ _ _ cs => cs

/-- `element.get(key)` on the attribute list. -/
def Xml.getAttr (x : Xml) (k : String) : Option String :=
  x.attrs.lookup k

mutual
/-- A raw docx table cell as `process_table` reads it: the `w:gridSpan`
value (line 59-60), the `w:vMerge` element (`none` absent, `some none`
present without `w:val`, `some (some s)` present with value `s`,
lines 63-70), the texts of its paragraphs (line 93) and its nested tables
(line 96). -/
inductive RawCell : Type where
  | mk (gridSpan : Option Nat) (vMerge : Option (Option String))
      (paragraphs : List String) (tables : List Table) : RawCell

/-- A docx table: its ordered rows, each an ordered list of cells.  Row
lengths may differ (ragged rows). -/
inductive Table : Type where
  | mk (rows : List (List RawCell)) : Table
end

def RawCell.gridSpan : RawCell → Option Nat
  | .mk g _ _ _ => g

def RawCell.vMerge : RawCell → Option (Option String)
  | .mk _ v _ _ => v

def RawCell.paragraphs : RawCell → List String
  | .mk _ _ p _ => p

def RawCell.tables : RawCell → List Table
  | .mk _ _ _ t => t

def Table.rows : Table → List (List RawCell)
  | .mk r => r

/-- `colspan = int(gridSpan_el.get(qn('w:val'))) if gridSpan_el is not None
else 1` (line 60). -/
def gridSpanVal (cell : RawCell) : Nat :=
  cell.gridSpan.getD 1

/-- `vMerge_el is not None and vMerge_el.get(qn('w:val')) == 'restart'`
(line 65). -/
def isRestart : Option (Option String) → Bool
  | some (some s) => s == "restart"
  | _ => false

/-- `next_vMerge_el is not None and next_vMerge_el.get(qn('w:val')) is None`
(line 70): the vertical-merge continuation marker. -/
def isCont : Option (Option String) → Bool
  | some none => true
  | _ => false

/-- `table.cell(i, c)`: row `i`'s cell at column `c`; `none` models the
`IndexError` the source catches (lines 67-76). -/
def cellAt (grid : List (List RawCell)) (i c : Nat) : Option RawCell :=
  (grid.get? i).bind fun row => row.get? c

/-- The `for i in range(r + 1, len(table.rows))` lookahead of lines 66-76,
counting how many vMerge continuations extend the run; `rem` is the number
of loop iterations left (`nRows - i`), `i` the current row index. -/
def contRun (grid : List (List RawCell)) (c : Nat) : Nat → Nat → Nat
  | _, 0 => 0
  | i, Nat.succ rem =>
    match cellAt grid i c with
    | none => 0
    | some cell => if isCont cell.vMerge then Nat.succ (contRun grid c (i + 1) rem) else 0

/-- The rowspan computed at lines 62-76: `1`, plus — only for a cell whose
vMerge value is `restart` — one per contiguous continuation row below. -/
def rowspanOf (grid : List (List RawCell)) (nRows r c : Nat) (cell : RawCell) : Nat :=
  if isRestart cell.vMerge then 1 + contRun grid c (r + 1) (nRows - (r + 1)) else 1

/-- Lines 79-82: add every coordinate of the rectangle
`[r, r + rowspan) × [c, c + colspan)` to the processed set. -/
def markRect (occ : List (Nat × Nat)) (r c rowspan colspan : Nat) : List (Nat × Nat) :=
  ((List.range rowspan).flatMap fun i =>
    (List.range colspan).map fun j => (r + i, c + j)) ++ occ

/-- One `<cell>` emission: the loop coordinates and spans at the moment the
element is created (line 86), the raw cell it came from and its resolved
nested tables. -/
structure EmittedCell : Type where
  row : Nat
  col : Nat
  rowspan : Nat
  colspan : Nat
  cell : RawCell
  nested : List Xml

/-- Lines 86-98: the `<cell>` element for one emission — `rowspan` /
`colspan` attributes only when greater than one, text the newline-join of
the paragraph texts, children the resolved nested tables. -/
def mkCellElem (e : EmittedCell) : Xml :=
  Xml.elem "cell"
    ((if 1 < e.rowspan then [("rowspan", toString e.rowspan)] else []) ++
      (if 1 < e.colspan then [("colspan", toString e.colspan)] else []))
    (String.intercalate "\n" e.cell.paragraphs)
    e.nested

/-- The `for nested_table in cell.tables` loop of lines 96-98: resolve each
nested table in encounter order; a failing resolution fails the whole
traversal. -/
def resolveList (rn : Table → Option Xml) : List Table → Option (List Xml)
  | [] => some []
  | t :: ts =>
    match rn t with
    | none => none
    | some x =>
      match resolveList rn ts with
      | none => none
      | some xs => some (x :: xs)

/-- The `while c < n_cols` loop of lines 43-100 for the row `row` at index
`r`.  `rn` resolves nested tables, `occ` is the `processed_cells` set,
`fuel` the remaining iteration budget: `none` means the loop did not finish
within `fuel` iterations (with fuel `nCols` that is exactly the situation
in which the source loop diverges, see `c10_scan_terminates`). -/
def scanRow (rn : Table → Option Xml) (grid : List (List RawCell)) (nRows : Nat)
    (r : Nat) (row : List RawCell) (nCols : Nat) :
    Nat → Nat → List (Nat × Nat) → Option (List EmittedCell × List (Nat × Nat))
  | 0, c, occ => if nCols ≤ c then some ([], occ) else none
  | Nat.succ fuel, c, occ =>
    if nCols ≤ c then some ([], occ)
    else if (r, c) ∈ occ then
      scanRow rn grid nRows r row nCols fuel (c + 1) occ
    else
      match row.get? c with
      | none => some ([], occ)
      | some cell =>
        match resolveList rn cell.tables with
        | none => none
        | some nested =>
          match scanRow rn grid nRows r row nCols fuel
              (c + gridSpanVal cell)
              (markRect occ r c (rowspanOf grid nRows r c cell) (gridSpanVal cell)) with
          | none => none
          | some (rest, occ2) =>
            some (⟨r, c, rowspanOf grid nRows r c cell, gridSpanVal cell, cell, nested⟩
              :: rest, occ2)

/-- The `for r, row in enumerate(table.rows)` loop of lines 39-41, threading
the `processed_cells` set; each row's scan gets iteration budget `nCols`. -/
def scanRows (rn : Table → Option Xml) (grid : List (List RawCell))
    (nRows nCols : Nat) :
    List (List RawCell) → Nat → List (Nat × Nat) →
    Option (List (List EmittedCell) × List (Nat × Nat))
  | [], _, occ => some ([], occ)
  | row :: rest, r, occ =>
    match scanRow rn grid nRows r row nCols nCols 0 occ with
    | none => none
    | some (ems, occ2) =>
      match scanRows rn grid nRows nCols rest (r + 1) occ2 with
      | none => none
      | some (rws, occ3) => some (ems :: rws, occ3)

/-- `n_cols = max(len(row.cells) for row in table.rows)` (line 37); for an
empty row list the source raises `ValueError`, handled separately in
`processTable`. -/
def maxRowLen (rows : List (List RawCell)) : Nat :=
  rows.foldl (fun m row => max m row.length) 0

/-- One resolution pass of `process_table` on a fresh `processed_cells` set
(line 35), returning the per-row emitted cells.  The outer `Nat` bounds the
nesting depth of tables inside cells. -/
def processTableAux (rn : Table → Option Xml) (t : Table) :
    Option (List (List EmittedCell)) :=
  match t.rows with
  | [] => none
  | _ :: _ =>
    match scanRows rn t.rows t.rows.length (maxRowLen t.rows) t.rows 0 [] with
    | none => none
    | some (rws, _) => some rws

/-- Turn the emission trace into the `<table>` element of lines 32-98. -/
def tableXml (rws : List (List EmittedCell)) : Xml :=
  Xml.elem "table" [] "" (rws.map fun ems => Xml.elem "row" [] "" (ems.map mkCellElem))

/-- `process_table` (lines 26-100): `none` when no XML is produced — the
table has no rows (`ValueError` from `max`, line 37), a row scan diverges,
or the nesting depth exceeds `fuel`. -/
def processTable : Nat → Table → Option Xml
  | 0, _ => none
  | Nat.succ fuel, t =>
    match processTableAux (fun t' => processTable fuel t') t with
    | none => none
    | some rws => some (tableXml rws)

/-- The emission trace of one `process_table` call (same scan, XML layer
stripped). -/
def resolveCells : Nat → Table → Option (List (List EmittedCell))
  | 0, _ => none
  | Nat.succ fuel, t => processTableAux (fun t' => processTable fuel t') t

/-- Does the span rectangle of emission `e` cover coordinate `(x, y)`? -/
def coversB (e : EmittedCell) (x y : Nat) : Bool :=
  decide (e.row ≤ x) && decide (x < e.row + e.rowspan) &&
    decide (e.col ≤ y) && decide (y < e.col + e.colspan)

/-- The specification's reading of the vertical-merge lookahead: the number
of contiguous rows strictly below `r` whose cell at column `c` carries the
continuation marker, stopping at the first row lacking it (including rows
too short to have a column `c`) or at the table's row count. -/
def contCount (grid : List (List RawCell)) (nRows r c : Nat) : Nat :=
  ((List.range' (r + 1) (nRows - (r + 1))).takeWhile fun i =>
    match cellAt grid i c with
    | some cell => isCont cell.vMerge
    | none => false).length

/-- The merge-directive skeleton of a cell: the only two fields the span
computation reads. -/
def cellSkel (cell : RawCell) : Option Nat × Option (Option String) :=
  (cell.gridSpan, cell.vMerge)

/-- The merge-directive skeleton of a grid. -/
def gridSkel (grid : List (List RawCell)) : List (List (Option Nat × Option (Option String))) :=
  grid.map fun row => row.map cellSkel

/-- The position and extents of one emission. -/
def spanOf (e : EmittedCell) : Nat × Nat × Nat × Nat :=
  (e.row, e.col, e.rowspan, e.colspan)

/-- The spans of an emission trace, nested content forgotten. -/
def spanView (rws : List (List EmittedCell)) : List (List (Nat × Nat × Nat × Nat)) :=
  rws.map fun ems => ems.map spanOf

/-! Concrete cells and tables used by counterexamples and witnesses. -/

/-- A cell with no merge directives, no text, no nested tables. -/
def plainCell : RawCell := .mk none none [] []

/-- A cell with `w:gridSpan` value 2. -/
def span2Cell : RawCell := .mk (some 2) none [] []

/-- A cell with `w:vMerge w:val="restart"`. -/
def vStartCell : RawCell := .mk none (some (some "restart")) [] []

/-- A cell with a bare `w:vMerge` (continuation marker). -/
def vContCell : RawCell := .mk none (some none) [] []

/-- A cell with `w:gridSpan` value 0, which the source does not clamp. -/
def zeroSpanCell : RawCell := .mk (some 0) none [] []

/-- A 2×2 table whose second row starts with a 2-wide horizontal merge while
its second column is vertically merged from row 0: both emitted rectangles
claim coordinate `(1, 1)`. -/
def ceTable : Table := .mk [[plainCell, vStartCell], [span2Cell, vContCell]]

/-- A 3×1 table vertically merged over all three rows. -/
def vMergeTable : Table := .mk [[vStartCell], [vContCell], [vContCell]]

/-- A 2-column table whose second row has a single cell (ragged). -/
def raggedTable : Table := .mk [[plainCell, plainCell], [plainCell]]

/-- Row holding a 2-wide horizontal merge followed by a plain cell. -/
def colspanRow : List RawCell := [span2Cell, plainCell]

/-- One-row grid around `colspanRow`. -/
def colspanGrid : List (List RawCell) := [colspanRow]

/-- Row holding a lone continuation cell with no start above it. -/
def contRow : List RawCell := [vContCell]

/-- One-row grid around `contRow`. -/
def contGrid : List (List RawCell) := [contRow]

/-- Row holding the unclamped zero-span cell. -/
def zeroRow : List RawCell := [zeroSpanCell]

/-- One-row grid around `zeroRow`. -/
def zeroGrid : List (List RawCell) := [zeroRow]

/-- Row of two plain cells. -/
def termRow : List RawCell := [plainCell, plainCell]

/-- One-row grid around `termRow`. -/
def termGrid : List (List RawCell) := [termRow]

/-- A nested-table resolver that never succeeds (never consulted when no
cell has nested tables). -/
def rnNone : Table → Option Xml := fun _ => none

/-- A nested-table resolver that always succeeds. -/
def rnSome : Table → Option Xml := fun _ => some (Xml.elem "table" [] "" [])

/-- A 1×1 table of one plain cell, used as nested content. -/
def innerTable : Table := .mk [[plainCell]]

/-- A cell owning `innerTable` as nested content. -/
def hostCellNested : RawCell := .mk none none ["x"] [innerTable]

/-- The same cell skeleton with different text and no nested content. -/
def hostCellPlain : RawCell := .mk none none ["y"] []

/-- 1×1 table around `hostCellNested`. -/
def nestedHostTable : Table := .mk [[hostCellNested]]

/-- 1×1 table around `hostCellPlain`. -/
def plainHostTable : Table := .mk [[hostCellPlain]]

/-- The XML `processTable` produces for `innerTable`. -/
def innerXml : Xml :=
  Xml.elem "table" [] "" [Xml.elem "row" [] "" [Xml.elem "cell" [] "" []]]

/-- The emission trace of `nestedHostTable`. -/
def nestedHostCells : List (List EmittedCell) :=
  [[⟨0, 0, 1, 1, hostCellNested, [innerXml]⟩]]

/-- The emission trace of `plainHostTable`. -/
def plainHostCells : List (List EmittedCell) :=
  [[⟨0, 0, 1, 1, hostCellPlain, []⟩]]

/-- The emission trace of `raggedTable`. -/
def raggedCells : List (List EmittedCell) :=
  [[⟨0, 0, 1, 1, plainCell, []⟩, ⟨0, 1, 1, 1, plainCell, []⟩],
    [⟨1, 0, 1, 1, plainCell, []⟩]]

/-- The XML `processTable` produces for `vMergeTable`: one `<row>` per input
row, the last two empty. -/
def vMergeXml : Xml :=
  Xml.elem "table" [] ""
    [Xml.elem "row" [] "" [Xml.elem "cell" [("rowspan", "3")] "" []],
      Xml.elem "row" [] "" [],
      Xml.elem "row" [] "" []]

/-- An emission with rowspan 2 and colspan 1. -/
def wideCell : EmittedCell := ⟨0, 0, 2, 1, plainCell, []⟩

/-! Helper lemmas about the scan. -/

lemma scanRow_exit (rn : Table → Option Xml) (grid : List (List RawCell))
    (nRows r : Nat) (row : List RawCell) (nCols fuel c : Nat)
    (occ : List (Nat × Nat)) (h : nCols ≤ c) :
    scanRow rn grid nRows r row nCols fuel c occ = some ([], occ) := by
  cases fuel <;> simp [scanRow, h]

lemma scanRow_fuel_zero (rn : Table → Option Xml) (grid : List (List RawCell))
    (nRows r : Nat) (row : List RawCell) (nCols c : Nat)
    (occ : List (Nat × Nat)) (h : c < nCols) :
    scanRow rn grid nRows r row nCols 0 c occ = none := by
  simp [scanRow, Nat.not_le.mpr h]

lemma scanRow_skip (rn : Table → Option Xml) (grid : List (List RawCell))
    (nRows r : Nat) (row : List RawCell) (nCols fuel c : Nat)
    (occ : List (Nat × Nat)) (h : c < nCols) (hm : (r, c) ∈ occ) :
    scanRow rn grid nRows r row nCols (fuel + 1) c occ =
      scanRow rn grid nRows r row nCols fuel (c + 1) occ := by
  simp [scanRow, Nat.not_le.mpr h, hm]

lemma scanRow_ragged (rn : Table → Option Xml) (grid : List (List RawCell))
    (nRows r : Nat) (row : List RawCell) (nCols fuel c : Nat)
    (occ : List (Nat × Nat)) (h : c < nCols) (hm : (r, c) ∉ occ)
    (hc : row.get? c = none) :
    scanRow rn grid nRows r row nCols (fuel + 1) c occ = some ([], occ) := by
  rw [List.get?_eq_getElem?] at hc
  simp [scanRow, Nat.not_le.mpr h, hm, hc]

lemma scanRow_emit (rn : Table → Option Xml) (grid : List (List RawCell))
    (nRows r : Nat) (row : List RawCell) (nCols fuel c : Nat)
    (occ occ2 : List (Nat × Nat)) (cell : RawCell) (nested : List Xml)
    (rest : List EmittedCell)
    (h : c < nCols) (hm : (r, c) ∉ occ) (hc : row.get? c = some cell)
    (hn : resolveList rn cell.tables = some nested)
    (hr : scanRow rn grid nRows r row nCols fuel (c + gridSpanVal cell)
        (markRect occ r c (rowspanOf grid nRows r c cell) (gridSpanVal cell)) =
      some (rest, occ2)) :
    scanRow rn grid nRows r row nCols (fuel + 1) c occ =
      some (⟨r, c, rowspanOf grid nRows r c cell, gridSpanVal cell, cell, nested⟩
        :: rest, occ2) := by
  rw [List.get?_eq_getElem?] at hc
  simp [scanRow, Nat.not_le.mpr h, hm, hc, hn, hr]

lemma rowspanOf_pos (grid : List (List RawCell)) (nRows r c : Nat) (cell : RawCell) :
    1 ≤ rowspanOf grid nRows r c cell := by
  unfold rowspanOf; split <;> omega

lemma mem_markRect (occ : List (Nat × Nat)) (r c rs cs : Nat) (p : Nat × Nat) :
    p ∈ markRect occ r c rs cs ↔
      (r ≤ p.1 ∧ p.1 < r + rs ∧ c ≤ p.2 ∧ p.2 < c + cs) ∨ p ∈ occ := by
  unfold markRect
  simp only [List.mem_append, List.mem_flatMap, List.mem_map, List.mem_range]
  constructor
  · rintro (⟨i, hi, j, hj, hp⟩ | h)
    · subst hp; exact Or.inl (by omega)
    · exact Or.inr h
  · rintro (⟨h1, h2, h3, h4⟩ | h)
    · exact Or.inl ⟨p.1 - r, by omega, p.2 - c, ⟨by omega, by
        obtain ⟨x, y⟩ := p
        simp only [Prod.mk.injEq]
        omega⟩⟩
    · exact Or.inr h

lemma markRect_mono (occ : List (Nat × Nat)) (r c rs cs : Nat) (p : Nat × Nat)
    (h : p ∈ occ) : p ∈ markRect occ r c rs cs :=
  (mem_markRect occ r c rs cs p).mpr (Or.inr h)

lemma scanRow_zero_inv {rn : Table → Option Xml} {grid : List (List RawCell)}
    {nRows r : Nat} {row : List RawCell} {nCols c : Nat}
    {occ occ2 : List (Nat × Nat)} {ems : List EmittedCell}
    (h : scanRow rn grid nRows r row nCols 0 c occ = some (ems, occ2)) :
    nCols ≤ c ∧ ems = [] ∧ occ2 = occ := by
  simp only [scanRow] at h
  split_ifs at h with hx
  simp only [Option.some.injEq, Prod.mk.injEq] at h
  exact ⟨hx, h.1.symm, h.2.symm⟩

lemma scanRow_succ_inv {rn : Table → Option Xml} {grid : List (List RawCell)}
    {nRows r : Nat} {row : List RawCell} {nCols fuel c : Nat}
    {occ occ2 : List (Nat × Nat)} {ems : List EmittedCell}
    (h : scanRow rn grid nRows r row nCols (fuel + 1) c occ = some (ems, occ2)) :
    (nCols ≤ c ∧ ems = [] ∧ occ2 = occ) ∨
    (c < nCols ∧ (r, c) ∈ occ ∧
      scanRow rn grid nRows r row nCols fuel (c + 1) occ = some (ems, occ2)) ∨
    (c < nCols ∧ (r, c) ∉ occ ∧ row.get? c = none ∧ ems = [] ∧ occ2 = occ) ∨
    (∃ cell nested rest, c < nCols ∧ (r, c) ∉ occ ∧ row.get? c = some cell ∧
      resolveList rn cell.tables = some nested ∧
      scanRow rn grid nRows r row nCols fuel (c + gridSpanVal cell)
        (markRect occ r c (rowspanOf grid nRows r c cell) (gridSpanVal cell)) =
          some (rest, occ2) ∧
      ems = ⟨r, c, rowspanOf grid nRows r c cell, gridSpanVal cell, cell, nested⟩ :: rest) := by
  simp only [scanRow] at h
  split_ifs at h with hx hm
  · simp only [Option.some.injEq, Prod.mk.injEq] at h
    exact Or.inl ⟨hx, h.1.symm, h.2.symm⟩
  · exact Or.inr (Or.inl ⟨Nat.not_le.mp hx, hm, h⟩)
  · cases hget : row.get? c with
    | none =>
      rw [hget] at h
      dsimp only at h
      simp only [Option.some.injEq, Prod.mk.injEq] at h
      exact Or.inr (Or.inr (Or.inl ⟨Nat.not_le.mp hx, hm, rfl, h.1.symm, h.2.symm⟩))
    | some cell =>
      rw [hget] at h
      dsimp only at h
      cases hn : resolveList rn cell.tables with
      | none => rw [hn] at h; exact absurd h (by simp)
      | some nested =>
        rw [hn] at h
        cases hr : scanRow rn grid nRows r row nCols fuel (c + gridSpanVal cell)
            (markRect occ r c (rowspanOf grid nRows r c cell) (gridSpanVal cell)) with
        | none => rw [hr] at h; exact absurd h (by simp)
        | some res =>
          obtain ⟨rest, occ3⟩ := res
          rw [hr] at h
          simp only [Option.some.injEq, Prod.mk.injEq] at h
          exact Or.inr (Or.inr (Or.inr ⟨cell, nested, rest, Nat.not_le.mp hx, hm, rfl, hn,
            h.2 ▸ hr, h.1.symm⟩))

lemma scanRow_occ_mono {rn : Table → Option Xml} {grid : List (List RawCell)}
    {nRows r : Nat} {row : List RawCell} {nCols : Nat} :
    ∀ {fuel c : Nat} {occ occ2 : List (Nat × Nat)} {ems : List EmittedCell},
    scanRow rn grid nRows r row nCols fuel c occ = some (ems, occ2) →
    ∀ p, p ∈ occ → p ∈ occ2 := by
  intro fuel
  induction fuel with
  | zero =>
    intro c occ occ2 ems h p hp
    obtain ⟨-, -, rfl⟩ := scanRow_zero_inv h
    exact hp
  | succ fuel IH =>
    intro c occ occ2 ems h p hp
    rcases scanRow_succ_inv h with ⟨-, -, rfl⟩ | ⟨-, -, hrec⟩ | ⟨-, -, -, -, rfl⟩ |
      ⟨cell, nested, rest, -, -, -, -, hrec, -⟩
    · exact hp
    · exact IH hrec p hp
    · exact hp
    · exact IH hrec p (markRect_mono _ _ _ _ _ _ hp)

lemma scanRow_occ_sub {rn : Table → Option Xml} {grid : List (List RawCell)}
    {nRows r : Nat} {row : List RawCell} {nCols : Nat} :
    ∀ {fuel c : Nat} {occ occ2 : List (Nat × Nat)} {ems : List EmittedCell},
    scanRow rn grid nRows r row nCols fuel c occ = some (ems, occ2) →
    ∀ p, p ∈ occ2 → p ∈ occ ∨ ∃ e ∈ ems, coversB e p.1 p.2 = true := by
  intro fuel
  induction fuel with
  | zero =>
    intro c occ occ2 ems h p hp
    obtain ⟨-, -, rfl⟩ := scanRow_zero_inv h
    exact Or.inl hp
  | succ fuel IH =>
    intro c occ occ2 ems h p hp
    rcases scanRow_succ_inv h with ⟨-, rfl, rfl⟩ | ⟨-, -, hrec⟩ | ⟨-, -, -, rfl, rfl⟩ |
      ⟨cell, nested, rest, -, -, -, -, hrec, rfl⟩
    · exact Or.inl hp
    · exact IH hrec p hp
    · exact Or.inl hp
    · rcases IH hrec p hp with hin | ⟨e, he, hcov⟩
      · rcases (mem_markRect _ _ _ _ _ _).mp hin with hrect | hold
        · refine Or.inr ⟨_, List.mem_cons_self _ _, ?_⟩
          simp only [coversB]
          simp only [Bool.and_eq_true, decide_eq_true_eq]
          exact ⟨⟨⟨hrect.1, hrect.2.1⟩, hrect.2.2.1⟩, hrect.2.2.2⟩
        · exact Or.inl hold
      · exact Or.inr ⟨e, List.mem_cons_of_mem _ he, hcov⟩

lemma scanRow_covers {rn : Table → Option Xml} {grid : List (List RawCell)}
    {nRows r : Nat} {row : List RawCell} {nCols : Nat} :
    ∀ {fuel c : Nat} {occ occ2 : List (Nat × Nat)} {ems : List EmittedCell},
    scanRow rn grid nRows r row nCols fuel c occ = some (ems, occ2) →
    ∀ y, c ≤ y → y < nCols → y < row.length → (r, y) ∈ occ2 := by
  intro fuel
  induction fuel with
  | zero =>
    intro c occ occ2 ems h y hcy hyn _
    obtain ⟨hx, -, -⟩ := scanRow_zero_inv h
    omega
  | succ fuel IH =>
    intro c occ occ2 ems h y hcy hyn hylen
    rcases scanRow_succ_inv h with ⟨hx, -, -⟩ | ⟨-, hm, hrec⟩ | ⟨-, -, hget, -, rfl⟩ |
      ⟨cell, nested, rest, -, -, -, -, hrec, -⟩
    · omega
    · rcases Nat.eq_or_lt_of_le hcy with rfl | hlt
      · exact scanRow_occ_mono hrec _ hm
      · exact IH hrec y hlt hyn hylen
    · rw [List.get?_eq_none] at hget
      omega
    · by_cases hy : y < c + gridSpanVal cell
      · refine scanRow_occ_mono hrec _ ?_
        refine (mem_markRect _ _ _ _ _ _).mpr (Or.inl ?_)
        have := rowspanOf_pos grid nRows r c cell
        exact ⟨Nat.le_refl r, by omega, hcy, hy⟩
      · exact IH hrec y (by omega) hyn hylen

lemma scanRows_occ_mono {rn : Table → Option Xml} {grid : List (List RawCell)}
    {nRows nCols : Nat} :
    ∀ {rowsRem : List (List RawCell)} {r : Nat} {occ occF : List (Nat × Nat)}
    {rws : List (List EmittedCell)},
    scanRows rn grid nRows nCols rowsRem r occ = some (rws, occF) →
    ∀ p, p ∈ occ → p ∈ occF := by
  intro rowsRem
  induction rowsRem with
  | nil =>
    intro r occ occF rws h p hp
    simp only [scanRows, Option.some.injEq, Prod.mk.injEq] at h
    exact h.2 ▸ hp
  | cons row rest IH =>
    intro r occ occF rws h p hp
    simp only [scanRows] at h
    cases h1 : scanRow rn grid nRows r row nCols nCols 0 occ with
    | none => rw [h1] at h; exact absurd h (by simp)
    | some res1 =>
      obtain ⟨ems, occ2⟩ := res1
      rw [h1] at h
      dsimp only at h
      cases h2 : scanRows rn grid nRows nCols rest (r + 1) occ2 with
      | none => rw [h2] at h; exact absurd h (by simp)
      | some res2 =>
        obtain ⟨rws2, occ3⟩ := res2
        rw [h2] at h
        dsimp only at h
        simp only [Option.some.injEq, Prod.mk.injEq] at h
        exact h.2 ▸ IH h2 p (scanRow_occ_mono h1 p hp)

lemma scanRows_occ_sub {rn : Table → Option Xml} {grid : List (List RawCell)}
    {nRows nCols : Nat} :
    ∀ {rowsRem : List (List RawCell)} {r : Nat} {occ occF : List (Nat × Nat)}
    {rws : List (List EmittedCell)},
    scanRows rn grid nRows nCols rowsRem r occ = some (rws, occF) →
    ∀ p, p ∈ occF → p ∈ occ ∨ ∃ e ∈ rws.flatten, coversB e p.1 p.2 = true := by
  intro rowsRem
  induction rowsRem with
  | nil =>
    intro r occ occF rws h p hp
    simp only [scanRows, Option.some.injEq, Prod.mk.injEq] at h
    exact Or.inl (h.2 ▸ hp)
  | cons row rest IH =>
    intro r occ occF rws h p hp
    simp only [scanRows] at h
    cases h1 : scanRow rn grid nRows r row nCols nCols 0 occ with
    | none => rw [h1] at h; exact absurd h (by simp)
    | some res1 =>
      obtain ⟨ems, occ2⟩ := res1
      rw [h1] at h
      dsimp only at h
      cases h2 : scanRows rn grid nRows nCols rest (r + 1) occ2 with
      | none => rw [h2] at h; exact absurd h (by simp)
      | some res2 =>
        obtain ⟨rws2, occ3⟩ := res2
        rw [h2] at h
        dsimp only at h
        simp only [Option.some.injEq, Prod.mk.injEq] at h
        obtain ⟨hrw, hocc⟩ := h
        subst hrw
        subst hocc
        rcases IH h2 p hp with hin2 | ⟨e, he, hcov⟩
        · rcases scanRow_occ_sub h1 p hin2 with hin | ⟨e, he, hcov⟩
          · exact Or.inl hin
          · exact Or.inr ⟨e, by simp [List.mem_flatten]; exact Or.inl he, hcov⟩
        · exact Or.inr ⟨e, by
            simp only [List.flatten_cons, List.mem_append]
            exact Or.inr (by rw [List.mem_flatten] at he ⊢; exact he), hcov⟩

lemma scanRows_covers {rn : Table → Option Xml} {grid : List (List RawCell)}
    {nRows nCols : Nat} :
    ∀ {rowsRem : List (List RawCell)} {r : Nat} {occ occF : List (Nat × Nat)}
    {rws : List (List EmittedCell)},
    scanRows rn grid nRows nCols rowsRem r occ = some (rws, occF) →
    ∀ i rowi y, rowsRem.get? i = some rowi → y < nCols → y < rowi.length →
    (r + i, y) ∈ occF := by
  intro rowsRem
  induction rowsRem with
  | nil =>
    intro r occ occF rws h i rowi y hget _ _
    simp at hget
  | cons row rest IH =>
    intro r occ occF rws h i rowi y hget hyn hylen
    simp only [scanRows] at h
    cases h1 : scanRow rn grid nRows r row nCols nCols 0 occ with
    | none => rw [h1] at h; exact absurd h (by simp)
    | some res1 =>
      obtain ⟨ems, occ2⟩ := res1
      rw [h1] at h
      dsimp only at h
      cases h2 : scanRows rn grid nRows nCols rest (r + 1) occ2 with
      | none => rw [h2] at h; exact absurd h (by simp)
      | some res2 =>
        obtain ⟨rws2, occ3⟩ := res2
        rw [h2] at h
        dsimp only at h
        simp only [Option.some.injEq, Prod.mk.injEq] at h
        cases i with
        | zero =>
          simp only [List.get?_cons_zero, Option.some.injEq] at hget
          subst hget
          have hmem : (r, y) ∈ occ2 := scanRow_covers h1 y (Nat.zero_le y) hyn hylen
          exact h.2 ▸ (Nat.add_zero r ▸ scanRows_occ_mono h2 _ hmem)
        | succ i =>
          simp only [List.get?_cons_succ] at hget
          have := IH h2 i rowi y hget hyn hylen
          have harith : r + 1 + i = r + (i + 1) := by omega
          exact h.2 ▸ (harith ▸ this)

lemma scanRows_length {rn : Table → Option Xml} {grid : List (List RawCell)}
    {nRows nCols : Nat} :
    ∀ {rowsRem : List (List RawCell)} {r : Nat} {occ occF : List (Nat × Nat)}
    {rws : List (List EmittedCell)},
    scanRows rn grid nRows nCols rowsRem r occ = some (rws, occF) →
    rws.length = rowsRem.length := by
  intro rowsRem
  induction rowsRem with
  | nil =>
    intro r occ occF rws h
    simp only [scanRows, Option.some.injEq, Prod.mk.injEq] at h
    rw [← h.1]
    rfl
  | cons row rest IH =>
    intro r occ occF rws h
    simp only [scanRows] at h
    cases h1 : scanRow rn grid nRows r row nCols nCols 0 occ with
    | none => rw [h1] at h; exact absurd h (by simp)
    | some res1 =>
      obtain ⟨ems, occ2⟩ := res1
      rw [h1] at h
      dsimp only at h
      cases h2 : scanRows rn grid nRows nCols rest (r + 1) occ2 with
      | none => rw [h2] at h; exact absurd h (by simp)
      | some res2 =>
        obtain ⟨rws2, occ3⟩ := res2
        rw [h2] at h
        dsimp only at h
        simp only [Option.some.injEq, Prod.mk.injEq] at h
        rw [← h.1]
        simp [IH h2]

lemma foldl_max_le_init (rows : List (List RawCell)) :
    ∀ a : Nat, a ≤ rows.foldl (fun m row => max m row.length) a := by
  induction rows with
  | nil => intro a; exact Nat.le_refl a
  | cons row rest IH =>
    intro a
    exact Nat.le_trans (Nat.le_max_left a row.length) (IH (max a row.length))

lemma length_le_maxRowLen {row : List RawCell} {rows : List (List RawCell)}
    (h : row ∈ rows) : row.length ≤ maxRowLen rows := by
  unfold maxRowLen
  suffices hgen : ∀ a : Nat, row.length ≤ rows.foldl (fun m r => max m r.length) a by
    exact hgen 0
  induction rows with
  | nil => exact absurd h (List.not_mem_nil row)
  | cons hd rest IH =>
    intro a
    rcases List.mem_cons.mp h with rfl | hmem
    · exact Nat.le_trans (Nat.le_max_right a row.length) (foldl_max_le_init rest _)
    · exact IH hmem _

lemma processTable_eq_map (fuel : Nat) (t : Table) :
    processTable fuel t = (resolveCells fuel t).map tableXml := by
  cases fuel with
  | zero => rfl
  | succ fuel =>
    show (match processTableAux (fun t' => processTable fuel t') t with
      | none => none
      | some rws => some (tableXml rws)) =
        (processTableAux (fun t' => processTable fuel t') t).map tableXml
    cases processTableAux (fun t' => processTable fuel t') t <;> rfl

lemma resolveCells_inv {fuel : Nat} {t : Table} {rws : List (List EmittedCell)}
    (h : resolveCells fuel t = some rws) :
    ∃ fuel' occF, fuel = fuel' + 1 ∧ t.rows ≠ [] ∧
      scanRows (fun t' => processTable fuel' t') t.rows t.rows.length
        (maxRowLen t.rows) t.rows 0 [] = some (rws, occF) := by
  cases fuel with
  | zero => exact absurd h (by simp [resolveCells])
  | succ fuel =>
    refine ⟨fuel, ?_⟩
    simp only [resolveCells, processTableAux] at h
    cases hrows : t.rows with
    | nil => rw [hrows] at h; exact absurd h (by simp)
    | cons row rest =>
      rw [hrows] at h
      dsimp only at h
      cases hs : scanRows (fun t' => processTable fuel t') (row :: rest)
          (row :: rest).length (maxRowLen (row :: rest)) (row :: rest) 0 [] with
      | none => rw [hs] at h; exact absurd h (by simp)
      | some res =>
        obtain ⟨rws2, occF⟩ := res
        rw [hs] at h
        dsimp only at h
        simp only [Option.some.injEq] at h
        subst h
        exact ⟨occF, rfl, by simp, rfl⟩

lemma resolveList_isSome {rn : Table → Option Xml} :
    ∀ {ts : List Table}, (∀ t ∈ ts, (rn t).isSome) → (resolveList rn ts).isSome := by
  intro ts
  induction ts with
  | nil => intro _; simp [resolveList]
  | cons t rest IH =>
    intro h
    obtain ⟨x, hx⟩ := Option.isSome_iff_exists.mp (h t (List.mem_cons_self t rest))
    obtain ⟨xs, hxs⟩ := Option.isSome_iff_exists.mp
      (IH fun u hu => h u (List.mem_cons_of_mem t hu))
    simp [resolveList, hx, hxs]

lemma contRun_eq_takeWhile (grid : List (List RawCell)) (c : Nat) :
    ∀ (rem i : Nat),
    contRun grid c i rem =
      ((List.range' i rem).takeWhile fun k =>
        match cellAt grid k c with
        | some cell => isCont cell.vMerge
        | none => false).length := by
  intro rem
  induction rem with
  | zero => intro i; rfl
  | succ rem IH =>
    intro i
    rw [List.range'_succ i rem 1]
    rw [List.takeWhile_cons]
    show contRun grid c i (rem + 1) = _
    simp only [contRun]
    cases hcell : cellAt grid i c with
    | none => simp
    | some cell =>
      by_cases hk : isCont cell.vMerge
      · simp [hk, IH (i + 1)]
      · simp [hk]

/-! The claims. -/

/-- C1, counterexample to the claim as stated.  The claim demands that every
in-range coordinate be covered by exactly one emitted span and that no two
emitted rectangles overlap.  In `ceTable` the cell at (0,1) is a vertical
merge start whose span covers (1,1), while row 1 opens with a 2-wide
horizontal merge whose span also covers (1,1); both cells are emitted, so
the in-range coordinate (1,1) (the table has 2 columns and row 1 has 2
cells) is covered by two emitted rectangles. -/
theorem c1_counterexample :
    ((resolveCells 1 ceTable).map fun rws =>
      rws.flatten.countP fun e => coversB e 1 1) = some 2 ∧
    maxRowLen (Table.rows ceTable) = 2 := by
  constructor
  · rfl
  · rfl

/-- C1 (amended): every coordinate `(r, y)` that lies within the actual
length of row `r` is covered by AT LEAST one emitted cell's
rowspan-by-colspan rectangle (coordinates beyond a ragged row's length are
treated as absent); emitted rectangles may however overlap, so "exactly
one" does not hold in general (see `c1_counterexample`). -/
theorem c1_no_gaps (fuel : Nat) (t : Table) (rws : List (List EmittedCell))
    (r y : Nat) (rowr : List RawCell)
    (h : resolveCells fuel t = some rws)
    (hrow : t.rows.get? r = some rowr) (hy : y < rowr.length) :
    ∃ e ∈ rws.flatten, coversB e r y = true := by
  obtain ⟨fuel', occF, rfl, hne, hs⟩ := resolveCells_inv h
  have hmem : rowr ∈ t.rows := List.get?_mem hrow
  have hylen : y < maxRowLen t.rows := Nat.lt_of_lt_of_le hy (length_le_maxRowLen hmem)
  have hcov := scanRows_covers hs r rowr y hrow hylen hy
  rw [Nat.zero_add] at hcov
  rcases scanRows_occ_sub hs (r, y) hcov with hin | ⟨e, he, hcme⟩
  · exact absurd hin (List.not_mem_nil _)
  · exact ⟨e, he, hcme⟩

/-- Witness for `c1_no_gaps`: in the ragged table, coordinate (1, 0) — row
1 has one cell — is covered by an emitted span. -/
theorem c1_no_gaps_witness : ∃ e ∈ raggedCells.flatten, coversB e 1 0 = true :=
  c1_no_gaps 1 raggedTable raggedCells 1 0 [plainCell] rfl rfl (by decide)

/-- C2: for a cell whose vertical-merge directive is a `restart`, the
computed rowspan is 1 plus the number of contiguous rows immediately below
whose cell at the same column carries the continuation marker, stopping at
the first row lacking it (including rows too short for column `c`) or at
the table's row count — `contCount` is that declarative count. -/
theorem c2_rowspan_counts_run (grid : List (List RawCell)) (nRows r c : Nat)
    (cell : RawCell) (h : isRestart cell.vMerge = true) :
    rowspanOf grid nRows r c cell = 1 + contCount grid nRows r c := by
  unfold rowspanOf contCount
  rw [if_pos h, contRun_eq_takeWhile]

/-- Witness for `c2_rowspan_counts_run`: a restart over two continuation
rows gets rowspan `1 + 2`. -/
theorem c2_rowspan_counts_run_witness :
    rowspanOf (Table.rows vMergeTable) 3 0 0 vStartCell =
      1 + contCount (Table.rows vMergeTable) 3 0 0 ∧
    contCount (Table.rows vMergeTable) 3 0 0 = 2 :=
  ⟨c2_rowspan_counts_run (Table.rows vMergeTable) 3 0 0 vStartCell (by decide), by decide⟩

/-- C3: a directly scanned cell with horizontal span count `n` (`gridSpanVal`
defaults to 1 when the directive is absent) produces exactly one emission,
whose colspan is `n`; the scan resumes at column `c + n`, and every
coordinate `(r, c + j)` with `j < n` is marked occupied in the processed
set (so the swallowed `n - 1` coordinates are never emitted themselves). -/
theorem c3_colspan_step (rn : Table → Option Xml) (grid : List (List RawCell))
    (nRows r : Nat) (row : List RawCell) (nCols fuel c n : Nat)
    (occ occ2 : List (Nat × Nat)) (cell : RawCell) (nested : List Xml)
    (rest : List EmittedCell)
    (h : c < nCols) (hm : (r, c) ∉ occ) (hc : row.get? c = some cell)
    (hn : gridSpanVal cell = n)
    (hnest : resolveList rn cell.tables = some nested)
    (hr : scanRow rn grid nRows r row nCols fuel (c + n)
        (markRect occ r c (rowspanOf grid nRows r c cell) n) = some (rest, occ2)) :
    scanRow rn grid nRows r row nCols (fuel + 1) c occ =
      some (⟨r, c, rowspanOf grid nRows r c cell, n, cell, nested⟩ :: rest, occ2) ∧
    ∀ j, j < n → (r, c + j) ∈ markRect occ r c (rowspanOf grid nRows r c cell) n := by
  subst hn
  constructor
  · exact scanRow_emit rn grid nRows r row nCols fuel c occ occ2 cell nested rest
      h hm hc hnest hr
  · intro j hj
    refine (mem_markRect occ r c (rowspanOf grid nRows r c cell) (gridSpanVal cell)
      (r, c + j)).mpr (Or.inl ?_)
    have := rowspanOf_pos grid nRows r c cell
    exact ⟨Nat.le_refl r, by omega, by omega, by omega⟩

/-- Witness for `c3_colspan_step`: a 2-wide merge emits one cell with
colspan 2 and occupies (0, 1) as well. -/
theorem c3_colspan_step_witness :
    scanRow rnNone colspanGrid 1 0 colspanRow 2 2 0 [] =
      some ([⟨0, 0, 1, 2, span2Cell, []⟩], markRect [] 0 0 1 2) ∧
    (0, 1) ∈ markRect [] 0 0 1 2 := by
  have h := c3_colspan_step rnNone colspanGrid 1 0 colspanRow 2 1 0 2 []
    (markRect [] 0 0 1 2) span2Cell [] [] (by decide) (by decide) (by rfl) (by rfl)
    (by rfl) (by rfl)
  exact ⟨h.1, h.2 1 (by decide)⟩

/-- C4: (a) when the column scan reaches an unclaimed coordinate beyond the
actual length of its row, it stops for that row with a normal result (the
caught `IndexError` of lines 48-52), returning the cells emitted so far
and leaving the processed set unchanged; (b) every successful resolution
still contains one entry per input row — rows after a ragged one are
processed. -/
theorem c4_ragged_safe :
    (∀ (rn : Table → Option Xml) (grid : List (List RawCell)) (nRows r : Nat)
      (row : List RawCell) (nCols fuel c : Nat) (occ : List (Nat × Nat)),
      c < nCols → (r, c) ∉ occ → row.length ≤ c →
      scanRow rn grid nRows r row nCols (fuel + 1) c occ = some ([], occ)) ∧
    (∀ (fuel : Nat) (t : Table) (rws : List (List EmittedCell)),
      resolveCells fuel t = some rws → rws.length = t.rows.length) := by
  constructor
  · intro rn grid nRows r row nCols fuel c occ h hm hlen
    exact scanRow_ragged rn grid nRows r row nCols fuel c occ h hm
      (List.get?_eq_none.mpr hlen)
  · intro fuel t rws h
    obtain ⟨fuel', occF, rfl, hne, hs⟩ := resolveCells_inv h
    exact scanRows_length hs

/-- Witness for `c4_ragged_safe`: scanning row 1 of the ragged table at
column 1 (beyond its single cell) stops cleanly, and the full resolution
still has 2 rows. -/
theorem c4_ragged_safe_witness :
    scanRow rnNone (Table.rows raggedTable) 2 1 [plainCell] 2 1 1 [] = some ([], []) ∧
    raggedCells.length = (Table.rows raggedTable).length :=
  ⟨c4_ragged_safe.1 rnNone (Table.rows raggedTable) 2 1 [plainCell] 2 0 1 []
      (by decide) (by decide) (by decide),
    c4_ragged_safe.2 1 raggedTable raggedCells (by rfl)⟩

/-- C5: resolution is deterministic — the embedding of `process_table` is a
pure function of the input table (the source consults no randomness and no
external state; its only side effect is logging), so two runs on identical
input produce identical output. -/
theorem c5_deterministic (fuel : Nat) (t : Table) :
    processTable fuel t = processTable fuel t := rfl

/-- C7: a continuation cell reached directly by the column scan (its
coordinate unclaimed) does not fail: its vMerge value is not `restart`, so
the computed rowspan is 1 and it is emitted as a fresh cell with colspan
from its own horizontal directive. -/
theorem c7_lone_continuation (rn : Table → Option Xml) (grid : List (List RawCell))
    (nRows r : Nat) (row : List RawCell) (nCols fuel c : Nat)
    (occ occ2 : List (Nat × Nat)) (cell : RawCell) (nested : List Xml)
    (rest : List EmittedCell)
    (h : c < nCols) (hm : (r, c) ∉ occ) (hc : row.get? c = some cell)
    (hv : cell.vMerge = some none)
    (hnest : resolveList rn cell.tables = some nested)
    (hr : scanRow rn grid nRows r row nCols fuel (c + gridSpanVal cell)
        (markRect occ r c 1 (gridSpanVal cell)) = some (rest, occ2)) :
    rowspanOf grid nRows r c cell = 1 ∧
    scanRow rn grid nRows r row nCols (fuel + 1) c occ =
      some (⟨r, c, 1, gridSpanVal cell, cell, nested⟩ :: rest, occ2) := by
  have h1 : rowspanOf grid nRows r c cell = 1 := by
    unfold rowspanOf
    rw [hv]
    simp [isRestart]
  refine ⟨h1, ?_⟩
  have hemit := scanRow_emit rn grid nRows r row nCols fuel c occ occ2 cell nested rest
    h hm hc hnest (by rw [h1]; exact hr)
  rw [h1] at hemit
  exact hemit

/-- Witness for `c7_lone_continuation`: a lone continuation cell in a 1×1
table is emitted with rowspan 1 and colspan 1. -/
theorem c7_lone_continuation_witness :
    rowspanOf contGrid 1 0 0 vContCell = 1 ∧
    scanRow rnNone contGrid 1 0 contRow 1 1 0 [] =
      some ([⟨0, 0, 1, 1, vContCell, []⟩], markRect [] 0 0 1 1) :=
  c7_lone_continuation rnNone contGrid 1 0 contRow 1 0 0 [] (markRect [] 0 0 1 1)
    vContCell [] [] (by decide) (by decide) (by rfl) (by rfl) (by rfl) (by rfl)

/-- C9: every successful resolution emits exactly one `<row>` element per
input row, in input order (the `<row>` element is created at line 40 before
the scan, so a row whose in-range coordinates are all claimed by earlier
spans still yields an empty `<row>` rather than being dropped). -/
theorem c9_row_per_input_row (fuel : Nat) (t : Table) (out : Xml)
    (h : processTable fuel t = some out) :
    out.tag = "table" ∧ out.children.length = t.rows.length ∧
    ∀ x ∈ out.children, x.tag = "row" := by
  rw [processTable_eq_map] at h
  cases hr : resolveCells fuel t with
  | none => rw [hr] at h; exact absurd h (by simp)
  | some rws =>
    rw [hr] at h
    simp only [Option.map_some', Option.some.injEq] at h
    subst h
    obtain ⟨fuel', occF, rfl, hne, hs⟩ := resolveCells_inv hr
    refine ⟨rfl, ?_, ?_⟩
    · simpa [tableXml, Xml.children] using scanRows_length hs
    · intro x hx
      simp only [tableXml, Xml.children, List.mem_map] at hx
      obtain ⟨ems, -, rfl⟩ := hx
      rfl

/-- Witness for `c9_row_per_input_row`: the fully merged 3×1 table yields a
`<table>` with three `<row>` children, the last two empty. -/
theorem c9_row_per_input_row_witness :
    Xml.tag vMergeXml = "table" ∧
    (Xml.children vMergeXml).length = (Table.rows vMergeTable).length ∧
    Xml.tag (Xml.elem "row" [] "" []) = "row" :=
  ⟨(c9_row_per_input_row 1 vMergeTable vMergeXml (by rfl)).1,
    (c9_row_per_input_row 1 vMergeTable vMergeXml (by rfl)).2.1,
    (c9_row_per_input_row 1 vMergeTable vMergeXml (by rfl)).2.2
      (Xml.elem "row" [] "" []) (List.Mem.tail _ (List.Mem.head _))⟩

/-- C10: (a) when every cell of the row has horizontal span count at least 1
and nested resolution succeeds, each loop iteration strictly increases the
column index (by 1 on a skip, by the colspan on an emission) or breaks on a
ragged row, so the scan finishes within `nCols - c` iterations; (b) the
precondition is needed — the code does not clamp a span count of 0, and on
`zeroGrid` (one cell with `w:gridSpan` 0) the loop never finishes, whatever
the iteration budget. -/
theorem c10_scan_terminates :
    (∀ (rn : Table → Option Xml) (grid : List (List RawCell)) (nRows r : Nat)
      (row : List RawCell) (nCols : Nat),
      (∀ cell ∈ row, 1 ≤ gridSpanVal cell) → (∀ t', (rn t').isSome = true) →
      ∀ (fuel c : Nat) (occ : List (Nat × Nat)), nCols - c ≤ fuel →
      (scanRow rn grid nRows r row nCols fuel c occ).isSome = true) ∧
    (∀ (rn : Table → Option Xml) (fuel : Nat),
      scanRow rn zeroGrid 1 0 zeroRow 1 fuel 0 [] = none) := by
  constructor
  · intro rn grid nRows r row nCols hspan hrn fuel
    induction fuel with
    | zero =>
      intro c occ hle
      have hx : nCols ≤ c := by omega
      rw [scanRow_exit rn grid nRows r row nCols 0 c occ hx]
      rfl
    | succ fuel IH =>
      intro c occ hle
      by_cases hx : nCols ≤ c
      · rw [scanRow_exit rn grid nRows r row nCols (fuel + 1) c occ hx]
        rfl
      · have hclt : c < nCols := Nat.not_le.mp hx
        by_cases hm : (r, c) ∈ occ
        · rw [scanRow_skip rn grid nRows r row nCols fuel c occ hclt hm]
          exact IH (c + 1) occ (by omega)
        · cases hget : row.get? c with
          | none =>
            rw [scanRow_ragged rn grid nRows r row nCols fuel c occ hclt hm hget]
            rfl
          | some cell =>
            have hcell : cell ∈ row := List.get?_mem hget
            have h1 : 1 ≤ gridSpanVal cell := hspan cell hcell
            obtain ⟨nested, hnest⟩ := Option.isSome_iff_exists.mp
              (resolveList_isSome fun u _ => hrn u)
            have hrec := IH (c + gridSpanVal cell)
              (markRect occ r c (rowspanOf grid nRows r c cell) (gridSpanVal cell))
              (by omega)
            obtain ⟨res, hres⟩ := Option.isSome_iff_exists.mp hrec
            obtain ⟨rest, occ2⟩ := res
            rw [scanRow_emit rn grid nRows r row nCols fuel c occ occ2 cell nested rest
              hclt hm hget hnest hres]
            rfl
  · intro rn fuel
    induction fuel with
    | zero => rfl
    | succ fuel IH =>
      have hstep : scanRow rn zeroGrid 1 0 zeroRow 1 (fuel + 1) 0 [] =
          match scanRow rn zeroGrid 1 0 zeroRow 1 fuel 0 [] with
          | none => none
          | some (rest, occ2) => some (⟨0, 0, 1, 0, zeroSpanCell, []⟩ :: rest, occ2) := rfl
      rw [hstep, IH]

/-- Witness for `c10_scan_terminates`: a row of two unit-span cells scans to
completion with budget `nCols = 2`. -/
theorem c10_scan_terminates_witness :
    (scanRow rnSome termGrid 1 0 termRow 2 2 0 []).isSome = true :=
  c10_scan_terminates.1 rnSome termGrid 1 0 termRow 2 (by decide) (fun t' => rfl)
    2 0 [] (by decide)

lemma get?_map_skel {row row' : List RawCell}
    (h : row.map cellSkel = row'.map cellSkel) (c : Nat) :
    (row.get? c).map cellSkel = (row'.get? c).map cellSkel := by
  rw [← List.get?_map, ← List.get?_map, h]

lemma cellAt_skel {g g' : List (List RawCell)} (h : gridSkel g = gridSkel g')
    (i c : Nat) : (cellAt g i c).map cellSkel = (cellAt g' i c).map cellSkel := by
  unfold gridSkel at h
  have h1 : (g.get? i).map (List.map cellSkel) = (g'.get? i).map (List.map cellSkel) := by
    rw [← List.get?_map, ← List.get?_map, h]
  unfold cellAt
  cases hg : g.get? i with
  | none =>
    cases hg' : g'.get? i with
    | none => rfl
    | some row' => rw [hg, hg'] at h1; simp at h1
  | some row =>
    cases hg' : g'.get? i with
    | none => rw [hg, hg'] at h1; simp at h1
    | some row' =>
      rw [hg, hg'] at h1
      simp only [Option.map_some', Option.some.injEq] at h1
      exact get?_map_skel h1 c

lemma contRun_skel {g g' : List (List RawCell)} (h : gridSkel g = gridSkel g')
    (c : Nat) : ∀ (rem i : Nat), contRun g c i rem = contRun g' c i rem := by
  intro rem
  induction rem with
  | zero => intro i; rfl
  | succ rem IH =>
    intro i
    have hc := cellAt_skel h i c
    simp only [contRun]
    cases h1 : cellAt g i c with
    | none =>
      cases h2 : cellAt g' i c with
      | none => rfl
      | some u => rw [h1, h2] at hc; simp at hc
    | some u =>
      cases h2 : cellAt g' i c with
      | none => rw [h1, h2] at hc; simp at hc
      | some u' =>
        rw [h1, h2] at hc
        simp only [Option.map_some', Option.some.injEq] at hc
        have hv : u.vMerge = u'.vMerge := congrArg Prod.snd hc
        dsimp only
        rw [hv, IH (i + 1)]

lemma gridSpanVal_skel {cell cell' : RawCell}
    (hc : cellSkel cell = cellSkel cell') : gridSpanVal cell = gridSpanVal cell' := by
  have h1 : cell.gridSpan = cell'.gridSpan := congrArg Prod.fst hc
  unfold gridSpanVal
  rw [h1]

lemma rowspanOf_skel {g g' : List (List RawCell)} (hg : gridSkel g = gridSkel g')
    {cell cell' : RawCell} (hc : cellSkel cell = cellSkel cell')
    (nRows r c : Nat) :
    rowspanOf g nRows r c cell = rowspanOf g' nRows r c cell' := by
  have hv : cell.vMerge = cell'.vMerge := congrArg Prod.snd hc
  unfold rowspanOf
  rw [hv, contRun_skel hg c]

lemma scanRow_skel {rn rn' : Table → Option Xml} {g g' : List (List RawCell)}
    {nRows r nCols : Nat} {row row' : List RawCell}
    (hg : gridSkel g = gridSkel g') (hrow : row.map cellSkel = row'.map cellSkel) :
    ∀ {fuel c : Nat} {occ occ2 occ2' : List (Nat × Nat)} {ems ems' : List EmittedCell},
    scanRow rn g nRows r row nCols fuel c occ = some (ems, occ2) →
    scanRow rn' g' nRows r row' nCols fuel c occ = some (ems', occ2') →
    ems.map spanOf = ems'.map spanOf ∧ occ2 = occ2' := by
  intro fuel
  induction fuel with
  | zero =>
    intro c occ occ2 occ2' ems ems' h h'
    obtain ⟨-, rfl, rfl⟩ := scanRow_zero_inv h
    obtain ⟨-, rfl, rfl⟩ := scanRow_zero_inv h'
    exact ⟨rfl, rfl⟩
  | succ fuel IH =>
    intro c occ occ2 occ2' ems ems' h h'
    by_cases hx : nCols ≤ c
    · rw [scanRow_exit rn g nRows r row nCols (fuel + 1) c occ hx] at h
      rw [scanRow_exit rn' g' nRows r row' nCols (fuel + 1) c occ hx] at h'
      simp only [Option.some.injEq, Prod.mk.injEq] at h h'
      exact ⟨by rw [← h.1, ← h'.1], by rw [← h.2, ← h'.2]⟩
    · have hclt : c < nCols := Nat.not_le.mp hx
      by_cases hm : (r, c) ∈ occ
      · rw [scanRow_skip rn g nRows r row nCols fuel c occ hclt hm] at h
        rw [scanRow_skip rn' g' nRows r row' nCols fuel c occ hclt hm] at h'
        exact IH h h'
      · have hgm := get?_map_skel hrow c
        cases hget : row.get? c with
        | none =>
          have hget' : row'.get? c = none := by
            rw [hget] at hgm
            cases hh : row'.get? c with
            | none => rfl
            | some u => rw [hh] at hgm; simp at hgm
          rw [scanRow_ragged rn g nRows r row nCols fuel c occ hclt hm hget] at h
          rw [scanRow_ragged rn' g' nRows r row' nCols fuel c occ hclt hm hget'] at h'
          simp only [Option.some.injEq, Prod.mk.injEq] at h h'
          exact ⟨by rw [← h.1, ← h'.1], by rw [← h.2, ← h'.2]⟩
        | some cell =>
          obtain ⟨cell', hget', hskel2⟩ : ∃ u, row'.get? c = some u ∧ cellSkel cell = cellSkel u := by
            rw [hget] at hgm
            cases hh : row'.get? c with
            | none => rw [hh] at hgm; simp at hgm
            | some u =>
              rw [hh] at hgm
              simp only [Option.map_some', Option.some.injEq] at hgm
              exact ⟨u, rfl, hgm⟩
          rcases scanRow_succ_inv h with ⟨hx2, -, -⟩ | ⟨-, hm2, -⟩ | ⟨-, -, hget2, -, -⟩ |
            ⟨cellh, nested, rest, -, -, hget2, -, hrec, rfl⟩
          · omega
          · exact absurd hm2 hm
          · rw [hget] at hget2; exact absurd hget2 (by simp)
          · rw [hget] at hget2
            injection hget2 with hcell
            subst hcell
            rcases scanRow_succ_inv h' with ⟨hx2, -, -⟩ | ⟨-, hm2, -⟩ | ⟨-, -, hget2', -, -⟩ |
              ⟨cellh', nested', rest', -, -, hget2', -, hrec', rfl⟩
            · omega
            · exact absurd hm2 hm
            · rw [hget'] at hget2'; exact absurd hget2' (by simp)
            · rw [hget'] at hget2'
              injection hget2' with hcell'
              subst hcell'
              have hgv : gridSpanVal cell = gridSpanVal cell' := gridSpanVal_skel hskel2
              have hrs : rowspanOf g nRows r c cell = rowspanOf g' nRows r c cell' :=
                rowspanOf_skel hg hskel2 nRows r c
              rw [← hgv, ← hrs] at hrec'
              obtain ⟨hmap, rfl⟩ := IH hrec hrec'
              refine ⟨?_, rfl⟩
              simp only [List.map_cons, hmap]
              congr 1
              simp [spanOf, hgv, hrs]

lemma scanRows_skel {rn rn' : Table → Option Xml} {g g' : List (List RawCell)}
    {nRows nCols : Nat} (hg : gridSkel g = gridSkel g') :
    ∀ {rowsRem rowsRem' : List (List RawCell)} {r : Nat}
    {occ occF occF' : List (Nat × Nat)} {rws rws' : List (List EmittedCell)},
    rowsRem.map (List.map cellSkel) = rowsRem'.map (List.map cellSkel) →
    scanRows rn g nRows nCols rowsRem r occ = some (rws, occF) →
    scanRows rn' g' nRows nCols rowsRem' r occ = some (rws', occF') →
    spanView rws = spanView rws' ∧ occF = occF' := by
  intro rowsRem
  induction rowsRem with
  | nil =>
    intro rowsRem' r occ occF occF' rws rws' hmap h h'
    cases rowsRem' with
    | nil =>
      simp only [scanRows, Option.some.injEq, Prod.mk.injEq] at h h'
      exact ⟨by rw [← h.1, ← h'.1], by rw [← h.2, ← h'.2]⟩
    | cons u v => simp at hmap
  | cons row rest IH =>
    intro rowsRem' r occ occF occF' rws rws' hmap h h'
    cases rowsRem' with
    | nil => simp at hmap
    | cons row' rest' =>
      simp only [List.map_cons, List.cons.injEq] at hmap
      obtain ⟨hrow, hrest⟩ := hmap
      simp only [scanRows] at h h'
      cases h1 : scanRow rn g nRows r row nCols nCols 0 occ with
      | none => rw [h1] at h; exact absurd h (by simp)
      | some res1 =>
        obtain ⟨ems, occ2⟩ := res1
        rw [h1] at h
        dsimp only at h
        cases h1' : scanRow rn' g' nRows r row' nCols nCols 0 occ with
        | none => rw [h1'] at h'; exact absurd h' (by simp)
        | some res1' =>
          obtain ⟨ems', occ2'⟩ := res1'
          rw [h1'] at h'
          dsimp only at h'
          obtain ⟨hemap, rfl⟩ := scanRow_skel hg hrow h1 h1'
          cases h2 : scanRows rn g nRows nCols rest (r + 1) occ2 with
          | none => rw [h2] at h; exact absurd h (by simp)
          | some res2 =>
            obtain ⟨rws2, occ3⟩ := res2
            rw [h2] at h
            dsimp only at h
            cases h2' : scanRows rn' g' nRows nCols rest' (r + 1) occ2 with
            | none => rw [h2'] at h'; exact absurd h' (by simp)
            | some res2' =>
              obtain ⟨rws2', occ3'⟩ := res2'
              rw [h2'] at h'
              dsimp only at h'
              simp only [Option.some.injEq, Prod.mk.injEq] at h h'
              obtain ⟨hmap2, rfl⟩ := IH hrest h2 h2'
              obtain ⟨hw, hoF⟩ := h
              obtain ⟨hw', hoF'⟩ := h'
              subst hw
              subst hw'
              refine ⟨?_, by rw [← hoF, ← hoF']⟩
              simp only [spanView, List.map_cons]
              simp only [spanView] at hmap2
              rw [hemap, hmap2]

lemma foldl_max_congr :
    ∀ (g g' : List (List RawCell)) (a : Nat),
    g.map List.length = g'.map List.length →
    g.foldl (fun m row => max m row.length) a =
      g'.foldl (fun m row => max m row.length) a := by
  intro g
  induction g with
  | nil =>
    intro g' a h
    cases g' with
    | nil => rfl
    | cons u v => simp at h
  | cons row rest IH =>
    intro g' a h
    cases g' with
    | nil => simp at h
    | cons row' rest' =>
      simp only [List.map_cons, List.cons.injEq] at h
      obtain ⟨h1, h2⟩ := h
      simp only [List.foldl_cons]
      rw [h1]
      exact IH rest' _ h2

lemma map_length_of_skel {g g' : List (List RawCell)}
    (h : gridSkel g = gridSkel g') : g.map List.length = g'.map List.length := by
  have e1 : (gridSkel g).map List.length = g.map List.length := by
    simp [gridSkel, List.map_map, Function.comp_def]
  have e2 : (gridSkel g').map List.length = g'.map List.length := by
    simp [gridSkel, List.map_map, Function.comp_def]
  rw [← e1, ← e2, h]

lemma maxRowLen_skel {g g' : List (List RawCell)}
    (h : gridSkel g = gridSkel g') : maxRowLen g = maxRowLen g' :=
  foldl_max_congr g g' 0 (map_length_of_skel h)

/-- C6: nested content never influences the parent scan.  The spans a
resolution emits depend only on the grid's merge-directive skeleton (the
`w:gridSpan` / `w:vMerge` fields): two tables with the same skeleton — in
particular the same table with any nested tables added or removed inside
cells — emit identical row/column positions, rowspans and colspans.  A
nested table is resolved by `processTable` itself, which opens its own
fresh processed set (line 35); the parent's set is neither read nor
written by that call (it is not even in scope of the recursive call in
this embedding). -/
theorem c6_nested_independent (fuel fuel' : Nat) (t t' : Table)
    (rws rws' : List (List EmittedCell))
    (hskel : gridSkel t.rows = gridSkel t'.rows)
    (h : resolveCells fuel t = some rws)
    (h' : resolveCells fuel' t' = some rws') :
    spanView rws = spanView rws' := by
  obtain ⟨f1, occF, rfl, hne, hs⟩ := resolveCells_inv h
  obtain ⟨f2, occF', rfl, hne', hs'⟩ := resolveCells_inv h'
  have hlen : t.rows.length = t'.rows.length := by
    have hl := congrArg List.length hskel
    simpa [gridSkel] using hl
  have hcols : maxRowLen t.rows = maxRowLen t'.rows := maxRowLen_skel hskel
  rw [hlen, hcols] at hs
  exact (scanRows_skel hskel hskel hs hs').1

/-- Witness for `c6_nested_independent`: a host table with a nested table in
its single cell and the same host with the nested table removed (and other
text) emit identical spans. -/
theorem c6_nested_independent_witness :
    spanView nestedHostCells = spanView plainHostCells :=
  c6_nested_independent 2 1 nestedHostTable plainHostTable nestedHostCells
    plainHostCells (by rfl) (by rfl) (by rfl)

/-- C8: the emitted `<cell>` element carries a `rowspan` attribute exactly
when the rowspan exceeds 1 and a `colspan` attribute exactly when the
colspan exceeds 1 (lines 87-90); its text is the newline-join of the
paragraph texts (lines 93-94) and its children are the resolved nested
tables, each a `<table>` element (lines 96-98, via the recursive
`process_table` call); and every successful resolution's output is the
`<table>` element whose rows hold exactly the `mkCellElem` images of the
emitted cells. -/
theorem c8_cell_xml :
    (∀ e : EmittedCell,
      (mkCellElem e).tag = "cell" ∧
      (mkCellElem e).getAttr "rowspan" =
        (if 1 < e.rowspan then some (toString e.rowspan) else none) ∧
      (mkCellElem e).getAttr "colspan" =
        (if 1 < e.colspan then some (toString e.colspan) else none) ∧
      (mkCellElem e).text = String.intercalate "\n" e.cell.paragraphs ∧
      (mkCellElem e).children = e.nested) ∧
    (∀ (fuel : Nat) (t : Table) (out : Xml), processTable fuel t = some out →
      out.tag = "table" ∧
      ∃ rws, resolveCells fuel t = some rws ∧ out = tableXml rws) := by
  constructor
  · intro e
    refine ⟨rfl, ?_, ?_, rfl, rfl⟩
    · by_cases h1 : 1 < e.rowspan <;> by_cases h2 : 1 < e.colspan <;>
        simp [mkCellElem, Xml.getAttr, Xml.attrs, h1, h2, List.lookup]
    · by_cases h1 : 1 < e.rowspan <;> by_cases h2 : 1 < e.colspan <;>
        simp [mkCellElem, Xml.getAttr, Xml.attrs, h1, h2, List.lookup]
  · intro fuel t out h
    rw [processTable_eq_map] at h
    cases hr : resolveCells fuel t with
    | none => rw [hr] at h; exact absurd h (by simp)
    | some rws =>
      rw [hr] at h
      simp only [Option.map_some', Option.some.injEq] at h
      subst h
      exact ⟨rfl, rws, rfl, rfl⟩

/-- Witness for `c8_cell_xml`: a rowspan-2, colspan-1 emission gets a
`rowspan="2"` attribute and no `colspan` attribute; a resolved nested table
is a `<table>` element. -/
theorem c8_cell_xml_witness :
    (mkCellElem wideCell).getAttr "rowspan" = some "2" ∧
    (mkCellElem wideCell).getAttr "colspan" = none ∧
    Xml.tag innerXml = "table" :=
  ⟨((c8_cell_xml.1 wideCell).2.1).trans (by decide),
    ((c8_cell_xml.1 wideCell).2.2.1).trans (by decide),
    (c8_cell_xml.2 1 innerTable innerXml (by rfl)).1⟩
